import Mathlib

/-!
# Models of `models/user.model.go`

A shallow embedding of the persistence models, the pre-insert identity hooks,
the response filters and the generic validation call of the task-guardian
backend, followed by theorems about them.

Conventions of the embedding:

* a Go `string` is a Lean `String`; where the Go code indexes bytes
  (`uuid.Parse`) the string is first turned into its UTF-8 bytes (`goBytes`);
* a Go pointer field (`*string`, `*bool`) is an `Option`, with `nil` as `none`;
* a Go call that may abort is an `Except Panic _`;
* the two library packages the file calls into (`github.com/google/uuid`,
  `github.com/go-playground/validator/v10`) are modelled by the fragment of
  their behaviour that the file reaches.
-/

namespace Models

/-! ## Go strings as bytes -/

/-- UTF-8 encoding of one code point, as Go stores it inside a `string`. -/
def utf8Bytes (c : Char) : List Nat :=
  let v := c.toNat
  if v < 0x80 then [v]
  else if v < 0x800 then [0xC0 + v / 64, 0x80 + v % 64]
  else if v < 0x10000 then [0xE0 + v / 4096, 0x80 + v / 64 % 64, 0x80 + v % 64]
  else [0xF0 + v / 262144, 0x80 + v / 4096 % 64, 0x80 + v / 64 % 64, 0x80 + v % 64]

/-- The bytes of a Go string: `len(s)` is the length of this list and `s[i]`
its `i`-th entry. -/
def goBytes (s : String) : List Nat :=
  s.data.flatMap utf8Bytes

/-! ## `github.com/google/uuid` -/

/-- A `uuid.UUID`, Go type `[16]byte`. -/
structure UUID where
  bytes : List Nat
  deriving DecidableEq, Repr

/-- The ways a call of this file can abort. -/
inductive Panic where
  /-- `uuid.MustParse` on a string `uuid.Parse` rejects. -/
  | invalidUUID (s : String)
  /-- Dereference of a nil pointer. -/
  | nilDereference
  deriving DecidableEq, Repr

/-- The table `xvalues` of the uuid package: the value of a hexadecimal digit
byte, `255` for any other byte. -/
def xvalues (b : Nat) : Nat :=
  if 48 ≤ b ∧ b ≤ 57 then b - 48
  else if 65 ≤ b ∧ b ≤ 70 then b - 55
  else if 97 ≤ b ∧ b ≤ 102 then b - 87
  else 255

/-- The uuid package's `xtob`: two hexadecimal digit bytes to one byte. -/
def xtob (x1 x2 : Nat) : Option Nat :=
  let b1 := xvalues x1
  let b2 := xvalues x2
  if b1 ≠ 255 ∧ b2 ≠ 255 then some (b1 * 16 + b2) else none

/-- ASCII lower-casing of a byte, as `strings.EqualFold` needs it to compare
with the all-ASCII `urn:uuid:`. -/
def asciiLower (b : Nat) : Nat :=
  if 65 ≤ b ∧ b ≤ 90 then b + 32 else b

/-- Decode the bytes at the given offsets, two hexadecimal digits each. -/
def decodeAt (s : List Nat) : List Nat → Option (List Nat)
  | [] => some []
  | x :: xs =>
    match xtob (s.getD x 0) (s.getD (x + 1) 0), decodeAt s xs with
    | some v, some vs => some (v :: vs)
    | _, _ => none

/-- The offsets of the sixteen digit pairs in the 36-byte form. -/
def dashedOffsets : List Nat :=
  [0, 2, 4, 6, 9, 11, 14, 16, 19, 21, 24, 26, 28, 30, 32, 34]

/-- The offsets of the sixteen digit pairs in the 32-byte raw form. -/
def rawOffsets : List Nat :=
  [0, 2, 4, 6, 8, 10, 12, 14, 16, 18, 20, 22, 24, 26, 28, 30]

/-- The tail of `uuid.Parse`: the 36 bytes `xxxxxxxx-xxxx-xxxx-xxxx-xxxxxxxxxxxx`. -/
def parseDashed (s : List Nat) : Option UUID :=
  if s.getD 8 0 ≠ 45 ∨ s.getD 13 0 ≠ 45 ∨ s.getD 18 0 ≠ 45 ∨ s.getD 23 0 ≠ 45 then none
  else (decodeAt s dashedOffsets).map UUID.mk

/-- The uuid package's `Parse` on the bytes of its argument: the 36-byte
standard form, the same after `urn:uuid:` (any letter case), the same inside
one arbitrary leading and one arbitrary trailing byte (only the middle 36 bytes
are examined), and 32 raw hexadecimal digits. `none` is the returned error. -/
def parseBytes (s : List Nat) : Option UUID :=
  if s.length = 36 then parseDashed s
  else if s.length = 36 + 9 then
    if (s.take 9).map asciiLower = [117, 114, 110, 58, 117, 117, 105, 100, 58] then
      parseDashed (s.drop 9)
    else none
  else if s.length = 36 + 2 then parseDashed (s.drop 1)
  else if s.length = 32 then (decodeAt s rawOffsets).map UUID.mk
  else none

/-- The uuid package's `Parse`. -/
def Parse (s : String) : Option UUID :=
  parseBytes (goBytes s)

/-- The uuid package's `MustParse`: `Parse`, aborting on an error. -/
def MustParse (s : String) : Except Panic UUID :=
  match Parse s with
  | some u => .ok u
  | none => .error (.invalidUUID s)

/-- The strings `uuid.Parse` accepts. They are the strings in one of the four
textual forms of `AcceptedForm` (theorem `wellFormed_iff_acceptedForm`), the
canonical form among them. -/
def WellFormed (s : String) : Prop :=
  (Parse s).isSome = true

instance (s : String) : Decidable (WellFormed s) := by
  unfold WellFormed; infer_instance

/-- One lower-case hexadecimal digit, the table of `encoding/hex`. -/
def hexDigit (n : Nat) : Char :=
  if n < 10 then Char.ofNat (48 + n) else Char.ofNat (87 + n)

/-- The two digits `hex.Encode` writes for every byte. -/
def hexEncode : List Nat → List Char
  | [] => []
  | b :: bs => hexDigit (b / 16) :: hexDigit (b % 16) :: hexEncode bs

/-- The method `UUID.String`: the form `xxxxxxxx-xxxx-xxxx-xxxx-xxxxxxxxxxxx`
in lower-case digits. -/
def UUID.String (u : UUID) : String :=
  String.mk
    (hexEncode (u.bytes.take 4) ++ '-' ::
      hexEncode ((u.bytes.drop 4).take 2) ++ '-' ::
      hexEncode ((u.bytes.drop 6).take 2) ++ '-' ::
      hexEncode ((u.bytes.drop 8).take 2) ++ '-' ::
      hexEncode ((u.bytes.drop 10).take 6))

/-! ## The textual forms of a UUID -/

/-- A hexadecimal digit, in either case. -/
def isHexDigit (c : Char) : Bool :=
  "0123456789abcdefABCDEF".data.contains c

/-- The characters `cs` have the shape `form`, in which `x` stands for one
hexadecimal digit, a lower-case letter for itself in either case, and any other
character for itself. -/
def matchesForm : List Char → List Char → Bool
  | [], [] => true
  | p :: ps, c :: cs =>
    (if p = 'x' then isHexDigit c else c.toLower == p) && matchesForm ps cs
  | _, _ => false

/-- The canonical textual form of a UUID, five groups of hexadecimal digits. -/
def canonicalForm : List Char :=
  "xxxxxxxx-xxxx-xxxx-xxxx-xxxxxxxxxxxx".data

/-- The canonical form as a URN. -/
def urnForm : List Char :=
  "urn:uuid:xxxxxxxx-xxxx-xxxx-xxxx-xxxxxxxxxxxx".data

/-- Thirty-two hexadecimal digits without dashes. -/
def rawForm : List Char :=
  "xxxxxxxxxxxxxxxxxxxxxxxxxxxxxxxx".data

/-- A well-formed UUID string in the sense of the specification: a string in
the canonical form `xxxxxxxx-xxxx-xxxx-xxxx-xxxxxxxxxxxx`. It is stated on the
characters of the string and does not mention `Parse`. -/
def CanonicalUUID (s : String) : Prop :=
  matchesForm canonicalForm s.data = true

instance (s : String) : Decidable (CanonicalUUID s) := by
  unfold CanonicalUUID; infer_instance

/-- The canonical form between one leading and one trailing character, each of
one byte (as in the brace-wrapped form). -/
def wrappedCanonical (cs : List Char) : Bool :=
  match cs with
  | [] => false
  | a :: rest =>
    match rest.getLast? with
    | none => false
    | some b =>
      decide (a.toNat < 128) && decide (b.toNat < 128) &&
        matchesForm canonicalForm rest.dropLast

/-- The four textual forms of an identity: canonical, URN, wrapped, raw. Like
`CanonicalUUID` it is stated on the characters of the string. -/
def AcceptedForm (s : String) : Prop :=
  matchesForm canonicalForm s.data = true ∨ matchesForm urnForm s.data = true ∨
    wrappedCanonical s.data = true ∨ matchesForm rawForm s.data = true

instance (s : String) : Decidable (AcceptedForm s) := by
  unfold AcceptedForm; infer_instance

/-! ## The entities -/

/-- A `time.Time`; the file only copies such values. -/
structure Time where
  unixNano : Int
  deriving DecidableEq, Repr

/-- A Go `error` value. -/
structure GoError where
  msg : String
  deriving DecidableEq, Repr

/-- The handle `*gorm.DB` the hooks receive and do not use. -/
structure DB where
  name : String
  deriving DecidableEq, Repr

/-- The struct `Task`. The owning user is `UserID`; `Description` is free text
(the source comments it as the id of the assigned user, which no code reads it
as). -/
structure Task where
  ID : String
  UserID : String
  Title : String
  Description : String
  Status : String
  Deadline : Time
  CreatedAt : Time
  UpdatedAt : Time
  deriving DecidableEq, Repr

/-- The struct `User`. -/
structure User where
  ID : String
  Name : String
  Email : String
  Password : String
  Role : String
  Provider : Option String
  Photo : Option String
  Verified : Option Bool
  VerificationCode : String
  PasswordResetToken : String
  PasswordResetAt : Time
  CreatedAt : Time
  UpdatedAt : Time
  Task : List Task
  deriving DecidableEq, Repr

/-- The method `(*Task).BeforeCreate`. `newUUID` is what the call
`uuid.NewUUID()` inside the hook returned; the result is the receiver after the
call and the returned error (`none` for `nil`). -/
def Task.BeforeCreate (u : Task) (_tx : DB) (newUUID : Except GoError UUID) :
    Task × Option GoError :=
  match newUUID with
  | .error err => (u, some err)
  | .ok uuid => ({ u with ID := uuid.String }, none)

/-- The method `(*User).BeforeCreate`, with the same reading of `newUUID` and of
the result. -/
def User.BeforeCreate (u : User) (_tx : DB) (newUUID : Except GoError UUID) :
    User × Option GoError :=
  match newUUID with
  | .error err => (u, some err)
  | .ok uuid => ({ u with ID := uuid.String }, none)

/-! ## The response shapes and the filters -/

/-- The struct `UserResponse`. -/
structure UserResponse where
  ID : UUID
  Name : String
  Email : String
  Role : String
  Photo : String
  Provider : String
  CreatedAt : Time
  UpdatedAt : Time
  deriving DecidableEq, Repr

/-- The struct `taskResponse`. -/
structure taskResponse where
  ID : UUID
  UserID : UUID
  Title : String
  Description : String
  Status : String
  Deadline : Time
  CreatedAt : Time
  UpdatedAt : Time
  deriving DecidableEq, Repr

/-- Dereference of a Go pointer: aborts on nil. -/
def deref {α : Type} : Option α → Except Panic α
  | some a => .ok a
  | none => .error .nilDereference

/-- The function `FilterTaskRecord`. -/
def FilterTaskRecord (task : Task) : Except Panic taskResponse := do
  let id := task.ID
  let userID := task.UserID
  let rID ← MustParse id
  let rUserID ← MustParse userID
  pure {
    ID := rID
    UserID := rUserID
    Title := task.Title
    Description := task.Description
    Status := task.Status
    Deadline := task.Deadline
    CreatedAt := task.CreatedAt
    UpdatedAt := task.UpdatedAt }

/-- The function `FilterUserRecord`. -/
def FilterUserRecord (user : User) : Except Panic UserResponse := do
  let id := user.ID
  let rID ← MustParse id
  let rPhoto ← deref user.Photo
  let rProvider ← deref user.Provider
  pure {
    ID := rID
    Name := user.Name
    Email := user.Email
    Role := user.Role
    Photo := rPhoto
    Provider := rProvider
    CreatedAt := user.CreatedAt
    UpdatedAt := user.UpdatedAt }

/-! ## `github.com/go-playground/validator/v10` -/

/-- What reflection shows of one struct field: its name, its struct tag as
key/value pairs, and its value (every field of the input structs is a
`string`). -/
structure StructField where
  Name : String
  Tag : List (String × String)
  value : String
  deriving DecidableEq, Repr

/-- What reflection shows of a struct value: the name of its type and its
fields in declaration order. -/
structure StructValue where
  Name : String
  fields : List StructField
  deriving DecidableEq, Repr

/-- The types `ValidateStruct` is instantiated at, with their reflection. -/
class GoStruct (T : Type) where
  reflect : T → StructValue

/-- The method `reflect.StructTag.Get`: the value under a key, empty when the
key is absent. -/
def tagGet (tag : List (String × String)) (key : String) : String :=
  match tag.find? (fun kv => kv.1 == key) with
  | some kv => kv.2
  | none => ""

/-- The function `strings.Split` with a one-character separator. -/
def splitOnChar (sep : Char) : List Char → List (List Char)
  | [] => [[]]
  | c :: cs =>
    if c = sep then [] :: splitOnChar sep cs
    else
      match splitOnChar sep cs with
      | [] => [[c]]
      | h :: t => (c :: h) :: t

/-- The function `strings.SplitN(_, sep, 2)`: the text before the first
separator and, when there is one, the text after it. -/
def cutAt (sep : Char) : List Char → List Char × Option (List Char)
  | [] => ([], none)
  | c :: cs =>
    if c = sep then ([], some cs)
    else ((c :: (cutAt sep cs).1), (cutAt sep cs).2)

/-- The constraints of a `validate` tag in order, each with its parameter
(empty when it has none): the tag is split at `,` and every piece at its first
`=`. -/
def parseFieldTags (tag : String) : List (String × String) :=
  (splitOnChar ',' tag.data).map fun t =>
    (String.mk (cutAt '=' t).1, String.mk ((cutAt '=' t).2.getD []))

/-- A run of decimal digits as a number, the use `asInt` makes of
`strconv.ParseInt` on the parameters this file writes. -/
def parseDigits : List Char → Nat → Option Nat
  | [], acc => some acc
  | c :: cs, acc =>
    if c.isDigit then parseDigits cs (acc * 10 + (c.toNat - 48)) else none

/-- The helper `asInt`: aborts (`none`) when the parameter is not a number. -/
def asInt (param : String) : Option Nat :=
  if param.data = [] then none else parseDigits param.data 0

/-- The constraints the validator is asked for in this file. -/
def knownTag (tag : String) : Bool :=
  tag == "required" || tag == "min"

/-- One constraint on a string field. `required` holds of a string that is not
the zero value; `min` holds when the string has at least the parameter's number
of runes. `none` is an abort (a parameter that is not a number, or a constraint
outside `knownTag`). -/
def runTag (tag param value : String) : Option Bool :=
  if tag = "required" then some (value != "")
  else if tag = "min" then (asInt param).map fun p => decide (p ≤ value.length)
  else none

/-- A `validator.FieldError`. -/
structure fieldError where
  structNs : String
  tag : String
  param : String
  deriving DecidableEq, Repr

/-- The method `FieldError.StructNamespace`. -/
def fieldError.StructNamespace (fe : fieldError) : String := fe.structNs

/-- The method `FieldError.Tag`. -/
def fieldError.Tag (fe : fieldError) : String := fe.tag

/-- The method `FieldError.Param`. -/
def fieldError.Param (fe : fieldError) : String := fe.param

/-- The constraints of one field are run in order; the first that fails is
reported and ends the field. -/
def runTags (structNs value : String) : List (String × String) → Option (List fieldError)
  | [] => some []
  | (tag, param) :: rest =>
    match runTag tag param value with
    | none => none
    | some true => runTags structNs value rest
    | some false => some [{ structNs := structNs, tag := tag, param := param }]

/-- A `*validator.Validate`: the struct-tag key it reads. -/
structure Validate where
  tagName : String
  deriving DecidableEq, Repr

/-- The constructor `validator.New`: the key is `validate`. -/
def New : Validate :=
  { tagName := "validate" }

/-- The validation of one field: no tag under the key, or the tag `-`, means no
constraint; a constraint the validator does not know aborts. -/
def Validate.traverseField (v : Validate) (ns : String) (f : StructField) :
    Option (List fieldError) :=
  let tag := tagGet f.Tag v.tagName
  if tag = "-" ∨ tag = "" then some []
  else if (parseFieldTags tag).all (fun r => knownTag r.1) then
    runTags (ns ++ f.Name) f.value (parseFieldTags tag)
  else none

/-- The fields are visited in declaration order and their errors collected. -/
def Validate.validateFields (v : Validate) (ns : String) :
    List StructField → Option (List fieldError)
  | [] => some []
  | f :: fs =>
    match v.traverseField ns f, v.validateFields ns fs with
    | some e, some es => some (e ++ es)
    | _, _ => none

/-- The method `(*Validate).Struct`: `some []` is the nil error, `some errs` the
`validator.ValidationErrors`, `none` an abort. -/
def Validate.Struct (v : Validate) (s : StructValue) : Option (List fieldError) :=
  v.validateFields (s.Name ++ ".") s.fields

/-! ## The input structs and `ValidateStruct` -/

/-- The struct `SignUpInput`. -/
structure SignUpInput where
  Name : String
  Email : String
  Password : String
  PasswordConfirm : String
  Photo : String
  Role : String
  deriving DecidableEq, Repr

instance : GoStruct SignUpInput where
  reflect p :=
    { Name := "SignUpInput"
      fields := [
        ⟨"Name", [("json", "name"), ("validate", "required")], p.Name⟩,
        ⟨"Email", [("json", "email"), ("validate", "required")], p.Email⟩,
        ⟨"Password", [("json", "password"), ("validate", "required,min=8")], p.Password⟩,
        ⟨"PasswordConfirm", [("json", "passwordConfirm"), ("validate", "required,min=8")],
          p.PasswordConfirm⟩,
        ⟨"Photo", [("json", "photo")], p.Photo⟩,
        ⟨"Role", [("json", "role"), ("validate", "required")], p.Role⟩] }

/-- The struct `SignInInput`. -/
structure SignInInput where
  Email : String
  Password : String
  deriving DecidableEq, Repr

instance : GoStruct SignInInput where
  reflect p :=
    { Name := "SignInInput"
      fields := [
        ⟨"Email", [("json", "email"), ("validate", "required")], p.Email⟩,
        ⟨"Password", [("json", "password"), ("validate", "required")], p.Password⟩] }

/-- The struct `TaskInput`. -/
structure TaskInput where
  Title : String
  Description : String
  Status : String
  deriving DecidableEq, Repr

instance : GoStruct TaskInput where
  reflect p :=
    { Name := "TaskInput"
      fields := [
        ⟨"Title", [("json", "title"), ("validate", "required")], p.Title⟩,
        ⟨"Description", [("json", "description")], p.Description⟩,
        ⟨"Status", [("json", "status"), ("validate", "required")], p.Status⟩] }

/-- The struct `ForgotPasswordInput`. -/
structure ForgotPasswordInput where
  Email : String
  deriving DecidableEq, Repr

instance : GoStruct ForgotPasswordInput where
  reflect p :=
    { Name := "ForgotPasswordInput"
      fields := [
        ⟨"Email", [("json", "email"), ("binding", "required")], p.Email⟩] }

/-- The struct `ResetPasswordInput`. -/
structure ResetPasswordInput where
  Password : String
  PasswordConfirm : String
  deriving DecidableEq, Repr

instance : GoStruct ResetPasswordInput where
  reflect p :=
    { Name := "ResetPasswordInput"
      fields := [
        ⟨"Password", [("json", "password"), ("binding", "required")], p.Password⟩,
        ⟨"PasswordConfirm", [("json", "passwordConfirm"), ("binding", "required")],
          p.PasswordConfirm⟩] }

/-- The package variable `validate`. -/
def validate : Validate := New

/-- The struct `ErrorResponse`. -/
structure ErrorResponse where
  Field : String
  Tag : String
  Value : String
  deriving DecidableEq, Repr

/-- The function `ValidateStruct`: one element per field error, appended in
order to an initially nil slice; `none` when the validator aborts. -/
def ValidateStruct {T : Type} [GoStruct T] (payload : T) : Option (List ErrorResponse) :=
  match validate.Struct (GoStruct.reflect payload) with
  | none => none
  | some errs =>
    some (errs.foldl
      (fun errors err =>
        errors ++ [{ Field := err.StructNamespace, Tag := err.Tag, Value := err.Param }])
      [])

/-! ## Sample values -/

/-- A user record with every pointer field set. -/
def sampleUser : User :=
  { ID := "11111111-1111-1111-1111-111111111111"
    Name := "Ada"
    Email := "ada@example.com"
    Password := "hash-one"
    Role := "user"
    Provider := some "local"
    Photo := some "default.png"
    Verified := some false
    VerificationCode := "code-one"
    PasswordResetToken := "token-one"
    PasswordResetAt := ⟨0⟩
    CreatedAt := ⟨1⟩
    UpdatedAt := ⟨2⟩
    Task := [] }

/-- The same user with other secrets. -/
def sampleUserOtherSecrets : User :=
  { sampleUser with
    Password := "hash-two"
    VerificationCode := "code-two"
    PasswordResetToken := "token-two" }

/-- The same user with `Provider` nil. -/
def sampleUserNilProvider : User :=
  { sampleUser with Provider := none }

/-- The same user with an `ID` that is no UUID. -/
def sampleUserBadID : User :=
  { sampleUser with ID := "not-a-uuid" }

/-- A task record. -/
def sampleTask : Task :=
  { ID := "11111111-1111-1111-1111-111111111111"
    UserID := "22222222-2222-2222-2222-222222222222"
    Title := "Write report"
    Description := "quarterly"
    Status := "To Do"
    Deadline := ⟨3⟩
    CreatedAt := ⟨1⟩
    UpdatedAt := ⟨2⟩ }

/-- The same task with a `UserID` that is no UUID. -/
def sampleTaskBadUserID : Task :=
  { sampleTask with UserID := "" }

/-- The same user with an `ID` that wraps the canonical form in two letters. -/
def sampleUserWrappedID : User :=
  { sampleUser with ID := "x11111111-1111-1111-1111-111111111111y" }

/-- The same task with a `UserID` that wraps the canonical form in two
letters. -/
def sampleTaskWrappedUserID : Task :=
  { sampleTask with UserID := "x22222222-2222-2222-2222-222222222222y" }

/-- The UUID whose sixteen bytes are all `0x11`. -/
def uuidOnes : UUID := ⟨List.replicate 16 17⟩

/-- The UUID whose sixteen bytes are all `0x22`. -/
def uuidTwos : UUID := ⟨List.replicate 16 34⟩

/-- A sign-up input with every constrained field long enough. -/
def sampleSignUp : SignUpInput :=
  { Name := "Ada"
    Email := "ada@example.com"
    Password := "12345678"
    PasswordConfirm := "12345678"
    Photo := ""
    Role := "user" }

/-- A sign-up input whose confirmation is present but shorter than 8. -/
def sampleSignUpShortConfirm : SignUpInput :=
  { sampleSignUp with PasswordConfirm := "1234567" }

/-- A sign-up input without an email. -/
def sampleSignUpNoEmail : SignUpInput :=
  { sampleSignUp with Email := "" }

/-! ## Lemmas on the validator -/

theorem foldl_append_singleton {α β : Type} (f : α → β) (xs : List α) (acc : List β) :
    xs.foldl (fun errors err => errors ++ [f err]) acc = acc ++ xs.map f := by
  induction xs generalizing acc with
  | nil => simp
  | cons x xs ih => simp [ih]

theorem tagGet_validate (js t : String) :
    tagGet [("json", js), ("validate", t)] validate.tagName = t := rfl

theorem tagGet_binding (js t : String) :
    tagGet [("json", js), ("binding", t)] validate.tagName = "" := rfl

theorem tagGet_untagged (js : String) :
    tagGet [("json", js)] validate.tagName = "" := rfl

theorem parseFieldTags_required : parseFieldTags "required" = [("required", "")] := by
  decide

theorem parseFieldTags_required_min :
    parseFieldTags "required,min=8" = [("required", ""), ("min", "8")] := by
  decide

theorem asInt_eight : asInt "8" = some 8 := by decide

theorem traverseField_untagged (ns name js v : String) :
    validate.traverseField ns ⟨name, [("json", js)], v⟩ = some [] := by
  simp only [Validate.traverseField, tagGet_untagged]
  simp

theorem traverseField_binding (ns name js v : String) :
    validate.traverseField ns ⟨name, [("json", js), ("binding", "required")], v⟩ = some [] := by
  simp only [Validate.traverseField, tagGet_binding]
  simp

theorem traverseField_required (ns name js v : String) :
    validate.traverseField ns ⟨name, [("json", js), ("validate", "required")], v⟩ =
      some (if v = "" then [⟨ns ++ name, "required", ""⟩] else []) := by
  simp only [Validate.traverseField, tagGet_validate, parseFieldTags_required]
  by_cases h : v = ""
  · simp [knownTag, runTags, runTag, h]
  · have hb : (v != "") = true := bne_iff_ne.mpr h
    simp [knownTag, runTags, runTag, h, hb]

theorem traverseField_required_min (ns name js v : String) :
    validate.traverseField ns ⟨name, [("json", js), ("validate", "required,min=8")], v⟩ =
      some (if v = "" then [⟨ns ++ name, "required", ""⟩]
        else if v.length < 8 then [⟨ns ++ name, "min", "8"⟩] else []) := by
  simp only [Validate.traverseField, tagGet_validate, parseFieldTags_required_min]
  by_cases h : v = ""
  · simp [knownTag, runTags, runTag, h]
  · have hb : (v != "") = true := bne_iff_ne.mpr h
    by_cases h8 : v.length < 8
    · have h8n : ¬ 8 ≤ v.length := by omega
      simp [knownTag, runTags, runTag, h, hb, h8, h8n, asInt_eight]
    · have h8n : 8 ≤ v.length := by omega
      simp [knownTag, runTags, runTag, h, hb, h8, h8n, asInt_eight]

/-- The violations `ValidateStruct` reports for a `SignUpInput`, field by
field. -/
theorem ValidateStruct_SignUpInput (p : SignUpInput) :
    ValidateStruct p = some (
      (if p.Name = "" then [⟨"SignUpInput.Name", "required", ""⟩] else []) ++
      ((if p.Email = "" then [⟨"SignUpInput.Email", "required", ""⟩] else []) ++
      ((if p.Password = "" then [⟨"SignUpInput.Password", "required", ""⟩]
        else if p.Password.length < 8 then [⟨"SignUpInput.Password", "min", "8"⟩] else []) ++
      ((if p.PasswordConfirm = "" then [⟨"SignUpInput.PasswordConfirm", "required", ""⟩]
        else if p.PasswordConfirm.length < 8 then [⟨"SignUpInput.PasswordConfirm", "min", "8"⟩]
        else []) ++
      (if p.Role = "" then [⟨"SignUpInput.Role", "required", ""⟩] else []))))) := by
  simp only [ValidateStruct, Validate.Struct, GoStruct.reflect, Validate.validateFields,
    traverseField_required, traverseField_required_min, traverseField_untagged,
    foldl_append_singleton, fieldError.StructNamespace, fieldError.Tag, fieldError.Param]
  have e1 : "SignUpInput" ++ "." ++ "Name" = "SignUpInput.Name" := by decide
  have e2 : "SignUpInput" ++ "." ++ "Email" = "SignUpInput.Email" := by decide
  have e3 : "SignUpInput" ++ "." ++ "Password" = "SignUpInput.Password" := by decide
  have e4 : "SignUpInput" ++ "." ++ "PasswordConfirm" = "SignUpInput.PasswordConfirm" := by
    decide
  have e5 : "SignUpInput" ++ "." ++ "Role" = "SignUpInput.Role" := by decide
  simp only [e1, e2, e3, e4, e5, List.map_append, List.nil_append, List.append_nil,
    apply_ite (List.map _), List.map_cons, List.map_nil]


/-! ## `UUID.String` and `Parse` -/

theorem utf8Bytes_hexDigit :
    ∀ n, n < 16 → utf8Bytes (hexDigit n) = [if n < 10 then 48 + n else 87 + n] := by
  decide

theorem xvalues_hexDigit :
    ∀ n, n < 16 → xvalues (if n < 10 then 48 + n else 87 + n) = n := by
  decide

theorem xtob_hexDigit (b : Nat) (hb : b < 256) :
    xtob (if b / 16 < 10 then 48 + b / 16 else 87 + b / 16)
      (if b % 16 < 10 then 48 + b % 16 else 87 + b % 16) = some b := by
  have h1 : b / 16 < 16 := by omega
  have h2 : b % 16 < 16 := by omega
  have h3 : b / 16 ≠ 255 := by omega
  have h4 : b % 16 ≠ 255 := by omega
  have h5 : b / 16 * 16 + b % 16 = b := by omega
  simp only [xtob, xvalues_hexDigit _ h1, xvalues_hexDigit _ h2]
  simp [h3, h4, h5]

theorem goBytes_hexEncode_pair (b : Nat) (hb : b < 256) (rest : List Char) :
    (hexDigit (b / 16) :: hexDigit (b % 16) :: rest).flatMap utf8Bytes =
      (if b / 16 < 10 then 48 + b / 16 else 87 + b / 16) ::
      (if b % 16 < 10 then 48 + b % 16 else 87 + b % 16) :: rest.flatMap utf8Bytes := by
  have h1 : b / 16 < 16 := by omega
  have h2 : b % 16 < 16 := by omega
  simp [List.flatMap_cons, utf8Bytes_hexDigit _ h1, utf8Bytes_hexDigit _ h2]

/-- The string form of a UUID parses back to it: `UUID.String` yields a
well-formed UUID string and loses nothing. -/
theorem Parse_String (u : UUID) (hlen : u.bytes.length = 16) (hb : ∀ b ∈ u.bytes, b < 256) :
    Parse u.String = some u := by
  obtain ⟨bytes⟩ := u
  simp only at hlen hb
  rcases bytes with _ | ⟨b0, _ | ⟨b1, _ | ⟨b2, _ | ⟨b3, _ | ⟨b4, _ | ⟨b5, _ | ⟨b6, _ | ⟨b7,
    _ | ⟨b8, _ | ⟨b9, _ | ⟨b10, _ | ⟨b11, _ | ⟨b12, _ | ⟨b13, _ | ⟨b14, _ | ⟨b15, _ | ⟨b16, tl⟩⟩⟩⟩⟩⟩⟩⟩⟩⟩⟩⟩⟩⟩⟩⟩⟩ <;>
    simp at hlen
  simp only [List.mem_cons, List.mem_nil_iff, or_false, forall_eq_or_imp, forall_eq] at hb
  obtain ⟨h0, h1, h2, h3, h4, h5, h6, h7, h8, h9, h10, h11, h12, h13, h14, h15⟩ := hb
  have hdash : utf8Bytes '-' = [45] := by decide
  simp only [Parse, goBytes, UUID.String, List.take, List.drop, hexEncode, List.cons_append,
    List.nil_append, goBytes_hexEncode_pair _ h0, goBytes_hexEncode_pair _ h1,
    goBytes_hexEncode_pair _ h2, goBytes_hexEncode_pair _ h3, goBytes_hexEncode_pair _ h4,
    goBytes_hexEncode_pair _ h5, goBytes_hexEncode_pair _ h6, goBytes_hexEncode_pair _ h7,
    goBytes_hexEncode_pair _ h8, goBytes_hexEncode_pair _ h9, goBytes_hexEncode_pair _ h10,
    goBytes_hexEncode_pair _ h11, goBytes_hexEncode_pair _ h12, goBytes_hexEncode_pair _ h13,
    goBytes_hexEncode_pair _ h14, goBytes_hexEncode_pair _ h15, List.flatMap_cons, hdash,
    List.flatMap_nil, List.singleton_append]
  simp only [parseBytes, List.length_cons, List.length_nil, parseDashed, dashedOffsets, decodeAt,
    List.getD_cons_succ, List.getD_cons_zero, xtob_hexDigit _ h0, xtob_hexDigit _ h1,
    xtob_hexDigit _ h2, xtob_hexDigit _ h3, xtob_hexDigit _ h4, xtob_hexDigit _ h5,
    xtob_hexDigit _ h6, xtob_hexDigit _ h7, xtob_hexDigit _ h8, xtob_hexDigit _ h9,
    xtob_hexDigit _ h10, xtob_hexDigit _ h11, xtob_hexDigit _ h12, xtob_hexDigit _ h13,
    xtob_hexDigit _ h14, xtob_hexDigit _ h15]
  rw [if_pos True.intro, if_neg (by decide)]
  rfl

/-- The string form separates UUIDs: two UUIDs with the same string are
equal. -/
theorem UUID_String_injective (u v : UUID) (hu : u.bytes.length = 16)
    (hub : ∀ b ∈ u.bytes, b < 256) (hv : v.bytes.length = 16) (hvb : ∀ b ∈ v.bytes, b < 256)
    (h : u.String = v.String) : u = v := by
  have h1 := Parse_String u hu hub
  rw [h, Parse_String v hv hvb] at h1
  exact (Option.some.inj h1).symm

/-- A `SignUpInput` passes exactly when Name, Email and Role are non-empty and
Password and PasswordConfirm have at least 8 runes. -/
theorem ValidateStruct_SignUpInput_eq_nil_iff (p : SignUpInput) :
    ValidateStruct p = some [] ↔
      p.Name ≠ "" ∧ p.Email ≠ "" ∧ p.Role ≠ "" ∧
      8 ≤ p.Password.length ∧ 8 ≤ p.PasswordConfirm.length := by
  have hz : ("" : String).length = 0 := rfl
  rw [ValidateStruct_SignUpInput]
  by_cases h1 : p.Name = "" <;> by_cases h2 : p.Email = "" <;> by_cases h3 : p.Role = "" <;>
    by_cases h4 : p.Password = "" <;> by_cases h5 : p.PasswordConfirm = "" <;>
    by_cases h6 : p.Password.length < 8 <;> by_cases h7 : p.PasswordConfirm.length < 8 <;>
    simp [h1, h2, h3, h4, h5, h6, h7, hz]
  omega

/-- No `ForgotPasswordInput` is ever reported. -/
theorem ValidateStruct_ForgotPasswordInput (p : ForgotPasswordInput) :
    ValidateStruct p = some [] := by
  simp only [ValidateStruct, Validate.Struct, GoStruct.reflect, Validate.validateFields,
    traverseField_binding]
  rfl

/-- No `ResetPasswordInput` is ever reported. -/
theorem ValidateStruct_ResetPasswordInput (p : ResetPasswordInput) :
    ValidateStruct p = some [] := by
  simp only [ValidateStruct, Validate.Struct, GoStruct.reflect, Validate.validateFields,
    traverseField_binding]
  rfl

/-! ## `Parse` and the textual forms -/

theorem utf8Bytes_cases (c : Char) :
    (c.toNat < 128 ∧ utf8Bytes c = [c.toNat]) ∨
      ∃ b b' t, utf8Bytes c = b :: b' :: t ∧ 128 ≤ b ∧ 128 ≤ b' := by
  unfold utf8Bytes
  by_cases h1 : c.toNat < 0x80
  · left
    exact ⟨h1, by simp [h1]⟩
  · right
    by_cases h2 : c.toNat < 0x800
    · exact ⟨_, _, _, by simp only [h1, h2, if_true, if_false]; rfl, by omega, by omega⟩
    · by_cases h3 : c.toNat < 0x10000
      · exact ⟨_, _, _, by simp only [h1, h2, h3, if_true, if_false]; rfl, by omega, by omega⟩
      · exact ⟨_, _, _, by simp only [h1, h2, h3, if_false]; rfl, by omega, by omega⟩

theorem xvalues_of_ge (b : Nat) (h : 128 ≤ b) : xvalues b = 255 := by
  unfold xvalues
  rw [if_neg (by omega), if_neg (by omega), if_neg (by omega)]

theorem asciiLower_of_ge (b : Nat) (h : 128 ≤ b) : asciiLower b = b := by
  unfold asciiLower
  rw [if_neg (by omega)]

theorem isHexDigit_of_xvalues (c : Char) (h : xvalues c.toNat ≠ 255) : isHexDigit c = true := by
  have hc : c = Char.ofNat c.toNat := (Char.ofNat_toNat c).symm
  have hr : (48 ≤ c.toNat ∧ c.toNat ≤ 57) ∨ (65 ≤ c.toNat ∧ c.toNat ≤ 70) ∨
      (97 ≤ c.toNat ∧ c.toNat ≤ 102) := by
    unfold xvalues at h
    by_contra hn
    rw [if_neg (by omega), if_neg (by omega), if_neg (by omega)] at h
    exact h rfl
  generalize c.toNat = n at hc hr
  subst hc
  rcases hr with ⟨h1, h2⟩ | ⟨h1, h2⟩ | ⟨h1, h2⟩ <;> interval_cases n <;> decide

theorem toLower_of_asciiLower (c p : Char) (h : asciiLower c.toNat = p.toNat) :
    c.toLower = p := by
  unfold asciiLower at h
  unfold Char.toLower
  by_cases hr : 65 ≤ c.toNat ∧ c.toNat ≤ 90
  · rw [if_pos hr] at h
    simp only [ge_iff_le, hr, and_self, if_true, h, Char.ofNat_toNat]
  · rw [if_neg hr] at h
    have hcp : c = p := by rw [← Char.ofNat_toNat c, h, Char.ofNat_toNat]
    subst hcp
    exact if_neg hr


theorem flatMap_utf8Bytes_eq_nil (cs : List Char) (h : cs.flatMap utf8Bytes = []) : cs = [] := by
  cases cs with
  | nil => rfl
  | cons c cs =>
    exfalso
    rcases utf8Bytes_cases c with ⟨_, h1⟩ | ⟨b, b', t, h1, _, _⟩ <;>
      simp [List.flatMap_cons, h1] at h

theorem flatMap_utf8Bytes_length_one (cs : List Char) (h : (cs.flatMap utf8Bytes).length = 1) :
    ∃ b, cs = [b] ∧ b.toNat < 128 := by
  cases cs with
  | nil => simp at h
  | cons c cs =>
    rcases utf8Bytes_cases c with ⟨hc, h1⟩ | ⟨b, b', t, h1, _, _⟩
    · simp only [List.flatMap_cons, h1, List.singleton_append, List.length_cons,
        Nat.add_left_eq_self, List.length_eq_zero] at h
      exact ⟨c, by rw [flatMap_utf8Bytes_eq_nil cs h], hc⟩
    · simp [List.flatMap_cons, h1] at h

/-- Bytes that fit a form position by position come from characters that fit
the form: a character of several bytes has no byte a form admits. -/
theorem matchesForm_of_bytes (form : List Char)
    (hform : ∀ p ∈ form, 0 < p.toNat ∧ p.toNat < 128) (cs : List Char)
    (h : ∀ i, i < form.length →
      if form.getD i 'x' = 'x' then xvalues ((cs.flatMap utf8Bytes).getD i 0) ≠ 255
      else asciiLower ((cs.flatMap utf8Bytes).getD i 0) = (form.getD i 'x').toNat) :
    ∃ mid rest, cs = mid ++ rest ∧ matchesForm form mid = true ∧
      cs.flatMap utf8Bytes = mid.map Char.toNat ++ rest.flatMap utf8Bytes ∧
      mid.length = form.length := by
  induction form generalizing cs with
  | nil => exact ⟨[], cs, rfl, rfl, rfl, rfl⟩
  | cons p ps ih =>
    have hp := hform p (List.mem_cons_self p ps)
    have h0 := h 0 (by simp)
    simp only [List.getD_cons_zero] at h0
    -- the head byte fits the head of the form, so it is below 128 and not 0
    have hb : ∀ b, (if p = 'x' then xvalues b ≠ 255 else asciiLower b = p.toNat) →
        0 < b ∧ b < 128 := by
      intro b hb
      by_cases hpx : p = 'x'
      · rw [if_pos hpx] at hb
        constructor
        · rcases Nat.eq_zero_or_pos b with hz | hz
          · subst hz; exact absurd (by decide) hb
          · exact hz
        · by_contra hge
          exact hb (xvalues_of_ge b (by omega))
      · rw [if_neg hpx] at hb
        unfold asciiLower at hb
        by_cases hr : 65 ≤ b ∧ b ≤ 90
        · omega
        · rw [if_neg hr] at hb
          omega
    cases cs with
    | nil =>
      have := hb _ h0
      simp at this
    | cons c cs =>
      rcases utf8Bytes_cases c with ⟨hc, h1⟩ | ⟨b, b', t, h1, hge, _⟩
      · simp only [List.flatMap_cons, h1, List.singleton_append, List.getD_cons_zero] at h0
        obtain ⟨mid, rest, hcs, hm, hbytes, hlen⟩ := ih
          (fun q hq => hform q (List.mem_cons_of_mem p hq)) cs (by
            intro i hi
            have := h (i + 1) (by simp; omega)
            simpa only [List.flatMap_cons, h1, List.singleton_append, List.getD_cons_succ]
              using this)
        refine ⟨c :: mid, rest, by rw [hcs]; rfl, ?_, ?_, by simp [hlen]⟩
        · simp only [matchesForm, hm, Bool.and_true]
          by_cases hpx : p = 'x'
          · rw [if_pos hpx] at h0
            rw [if_pos hpx]
            exact isHexDigit_of_xvalues c h0
          · rw [if_neg hpx] at h0
            rw [if_neg hpx]
            simp [toLower_of_asciiLower c p h0]
        · simp only [List.flatMap_cons, h1, List.singleton_append, hbytes, List.map_cons,
            List.cons_append, List.nil_append]
      · simp only [List.flatMap_cons, h1, List.cons_append, List.getD_cons_zero] at h0
        have := hb _ h0
        omega

theorem xtob_some {a b v : Nat} (h : xtob a b = some v) :
    xvalues a ≠ 255 ∧ xvalues b ≠ 255 := by
  unfold xtob at h
  by_contra hn
  simp only [hn, if_false] at h
  exact Option.noConfusion h

theorem decodeAt_some {s : List Nat} :
    ∀ {xs vs : List Nat}, decodeAt s xs = some vs →
      ∀ x ∈ xs, xvalues (s.getD x 0) ≠ 255 ∧ xvalues (s.getD (x + 1) 0) ≠ 255 := by
  intro xs
  induction xs with
  | nil => intro vs _ x hx; simp at hx
  | cons y ys ih =>
    intro vs h x hx
    unfold decodeAt at h
    cases hy : xtob (s.getD y 0) (s.getD (y + 1) 0) with
    | none => rw [hy] at h; simp at h
    | some v =>
      cases hys : decodeAt s ys with
      | none => rw [hy, hys] at h; simp at h
      | some ws =>
        rcases List.mem_cons.mp hx with rfl | hx
        · exact xtob_some hy
        · exact ih hys x hx

theorem canonicalForm_getD :
    ∀ i, i < 36 → canonicalForm.getD i 'x' =
      if i = 8 ∨ i = 13 ∨ i = 18 ∨ i = 23 then '-' else 'x' := by
  decide

theorem dashedOffsets_cover :
    ∀ i, i < 36 → (i = 8 ∨ i = 13 ∨ i = 18 ∨ i = 23) ∨ i ∈ dashedOffsets ∨
      ∃ x ∈ dashedOffsets, i = x + 1 := by
  decide

theorem rawOffsets_cover :
    ∀ i, i < 32 → i ∈ rawOffsets ∨ ∃ x ∈ rawOffsets, i = x + 1 := by
  decide

/-- What `parseDashed` has checked of every one of the first 36 bytes. -/
theorem parseDashed_bytes {s : List Nat} {u : UUID} (h : parseDashed s = some u) (i : Nat)
    (hi : i < 36) :
    if canonicalForm.getD i 'x' = 'x' then xvalues (s.getD i 0) ≠ 255
    else asciiLower (s.getD i 0) = (canonicalForm.getD i 'x').toNat := by
  unfold parseDashed at h
  by_cases hd : s.getD 8 0 ≠ 45 ∨ s.getD 13 0 ≠ 45 ∨ s.getD 18 0 ≠ 45 ∨ s.getD 23 0 ≠ 45
  · rw [if_pos hd] at h
    exact Option.noConfusion h
  · rw [if_neg hd] at h
    have hd8 : s.getD 8 0 = 45 := by by_contra hx; exact hd (Or.inl hx)
    have hd13 : s.getD 13 0 = 45 := by by_contra hx; exact hd (Or.inr (Or.inl hx))
    have hd18 : s.getD 18 0 = 45 := by by_contra hx; exact hd (Or.inr (Or.inr (Or.inl hx)))
    have hd23 : s.getD 23 0 = 45 := by by_contra hx; exact hd (Or.inr (Or.inr (Or.inr hx)))
    cases hdec : decodeAt s dashedOffsets with
    | none => simp [hdec] at h
    | some vs =>
      have hx := decodeAt_some hdec
      rw [canonicalForm_getD i hi]
      rcases dashedOffsets_cover i hi with hdash | hmem | ⟨x, hmem, rfl⟩
      · rw [if_pos hdash]
        rcases hdash with rfl | rfl | rfl | rfl
        · rw [hd8]; decide
        · rw [hd13]; decide
        · rw [hd18]; decide
        · rw [hd23]; decide
      · have hnd : ¬ (i = 8 ∨ i = 13 ∨ i = 18 ∨ i = 23) := by
          intro hdash
          rcases hdash with rfl | rfl | rfl | rfl <;> exact absurd hmem (by decide)
        rw [if_neg hnd]
        simp only [if_true]
        exact (hx i hmem).1
      · have hnd : ¬ (x + 1 = 8 ∨ x + 1 = 13 ∨ x + 1 = 18 ∨ x + 1 = 23) := by
          intro hdash
          have h7 : x = 7 ∨ x = 12 ∨ x = 17 ∨ x = 22 := by omega
          rcases h7 with rfl | rfl | rfl | rfl <;> exact absurd hmem (by decide)
        rw [if_neg hnd]
        simp only [if_true]
        exact (hx x hmem).2

theorem canonicalForm_ascii : ∀ p ∈ canonicalForm, 0 < p.toNat ∧ p.toNat < 128 := by
  decide

theorem urnForm_ascii : ∀ p ∈ urnForm, 0 < p.toNat ∧ p.toNat < 128 := by
  decide

theorem rawForm_ascii : ∀ p ∈ rawForm, 0 < p.toNat ∧ p.toNat < 128 := by
  decide

theorem rawForm_getD : ∀ i, i < 32 → rawForm.getD i 'x' = 'x' := by
  decide

theorem urnForm_getD_head :
    ∀ i, i < 9 → urnForm.getD i 'x' ≠ 'x' ∧
      (urnForm.getD i 'x').toNat = [117, 114, 110, 58, 117, 117, 105, 100, 58].getD i 0 := by
  decide

theorem urnForm_getD_tail :
    ∀ i, i < 45 → 9 ≤ i → urnForm.getD i 'x' = canonicalForm.getD (i - 9) 'x' := by
  decide

theorem getD_drop (l : List Nat) (n i : Nat) : (l.drop n).getD i 0 = l.getD (n + i) 0 := by
  simp [List.getD_eq_getElem?_getD]

theorem getD_map_take (l : List Nat) (f : Nat → Nat) (n i : Nat) (hi : i < n)
    (hn : n ≤ l.length) : ((l.take n).map f).getD i 0 = f (l.getD i 0) := by
  have hlt : i < l.length := by omega
  simp [List.getD_eq_getElem?_getD, List.getElem?_take, hi, List.getElem?_eq_getElem hlt]

/-- Bytes that fit a form and are as many as the form has places come from
characters that match the form. -/
theorem matchesForm_of_bytes_exact (form : List Char)
    (hform : ∀ p ∈ form, 0 < p.toNat ∧ p.toNat < 128) (cs : List Char)
    (hlen : (cs.flatMap utf8Bytes).length = form.length)
    (h : ∀ i, i < form.length →
      if form.getD i 'x' = 'x' then xvalues ((cs.flatMap utf8Bytes).getD i 0) ≠ 255
      else asciiLower ((cs.flatMap utf8Bytes).getD i 0) = (form.getD i 'x').toNat) :
    matchesForm form cs = true := by
  obtain ⟨mid, rest, hcs, hm, hbytes, hml⟩ := matchesForm_of_bytes form hform cs h
  have hl := congrArg List.length hbytes
  rw [List.length_append, List.length_map, hlen, hml] at hl
  have hrest := flatMap_utf8Bytes_eq_nil rest (List.length_eq_zero.mp (by omega))
  rw [hcs, hrest, List.append_nil]
  exact hm

/-- Every string `Parse` accepts is in one of the four textual forms. -/
theorem acceptedForm_of_Parse {s : String} {u : UUID} (h : Parse s = some u) :
    AcceptedForm s := by
  unfold Parse parseBytes goBytes at h
  by_cases h36 : (s.data.flatMap utf8Bytes).length = 36
  · rw [if_pos h36] at h
    exact Or.inl (matchesForm_of_bytes_exact canonicalForm canonicalForm_ascii s.data
      (by rw [h36]; rfl) (fun i hi => parseDashed_bytes h i hi))
  · rw [if_neg h36] at h
    by_cases h45 : (s.data.flatMap utf8Bytes).length = 36 + 9
    · rw [if_pos h45] at h
      by_cases hurn : ((s.data.flatMap utf8Bytes).take 9).map asciiLower =
          [117, 114, 110, 58, 117, 117, 105, 100, 58]
      · rw [if_pos hurn] at h
        refine Or.inr (Or.inl (matchesForm_of_bytes_exact urnForm urnForm_ascii s.data
          (by rw [h45]; rfl) ?_))
        intro i hi
        have hi45 : i < 45 := hi
        by_cases h9 : i < 9
        · rw [if_neg (urnForm_getD_head i h9).1, (urnForm_getD_head i h9).2, ← hurn,
            getD_map_take _ _ 9 i h9 (by omega)]
        · have hp := parseDashed_bytes h (i - 9) (by omega)
          rw [getD_drop, ← urnForm_getD_tail i hi45 (by omega)] at hp
          have hi9 : 9 + (i - 9) = i := by omega
          rw [hi9] at hp
          exact hp
      · rw [if_neg hurn] at h
        exact Option.noConfusion h
    · rw [if_neg h45] at h
      by_cases h38 : (s.data.flatMap utf8Bytes).length = 36 + 2
      · rw [if_pos h38] at h
        refine Or.inr (Or.inr (Or.inl ?_))
        cases hs : s.data with
        | nil => rw [hs] at h38; simp at h38
        | cons c cs =>
          rw [hs] at h h38
          rcases utf8Bytes_cases c with ⟨hc, h1⟩ | ⟨b, b', t, h1, _, hge⟩
          · simp only [List.flatMap_cons, h1, List.singleton_append, List.drop_succ_cons,
              List.drop_zero, List.length_cons] at h h38
            obtain ⟨mid, rest, hcs, hm, hbytes, hml⟩ :=
              matchesForm_of_bytes canonicalForm canonicalForm_ascii cs
                (fun i hi => parseDashed_bytes h i hi)
            have hl := congrArg List.length hbytes
            rw [List.length_append, List.length_map, hml] at hl
            have h36f : canonicalForm.length = 36 := rfl
            obtain ⟨e, he, hea⟩ := flatMap_utf8Bytes_length_one rest (by omega)
            subst he
            subst hcs
            simp [wrappedCanonical, hc, hea, hm]
          · exfalso
            have hp := parseDashed_bytes h 0 (by omega)
            rw [canonicalForm_getD 0 (by omega)] at hp
            simp only [List.flatMap_cons, h1, List.cons_append, List.drop_succ_cons,
              List.drop_zero, List.getD_cons_zero] at hp
            exact hp (xvalues_of_ge b' hge)
      · rw [if_neg h38] at h
        by_cases h32 : (s.data.flatMap utf8Bytes).length = 32
        · rw [if_pos h32] at h
          refine Or.inr (Or.inr (Or.inr (matchesForm_of_bytes_exact rawForm rawForm_ascii
            s.data (by rw [h32]; rfl) ?_)))
          intro i hi
          have hi32 : i < 32 := hi
          rw [rawForm_getD i hi32, if_pos rfl]
          cases hdec : decodeAt (s.data.flatMap utf8Bytes) rawOffsets with
          | none => rw [hdec] at h; exact Option.noConfusion h
          | some vs =>
            have hx := decodeAt_some hdec
            rcases rawOffsets_cover i hi32 with hmem | ⟨x, hmem, rfl⟩
            · exact (hx i hmem).1
            · exact (hx x hmem).2
        · rw [if_neg h32] at h
          exact Option.noConfusion h

theorem utf8Bytes_of_lt (c : Char) (h : c.toNat < 128) : utf8Bytes c = [c.toNat] := by
  rcases utf8Bytes_cases c with ⟨_, h1⟩ | ⟨b, b', t, h1, hb, _⟩
  · exact h1
  · exfalso
    unfold utf8Bytes at h1
    simp only [h, if_true] at h1
    simp at h1

theorem xvalues_of_isHexDigit (c : Char) (h : isHexDigit c = true) :
    xvalues c.toNat ≠ 255 ∧ c.toNat < 128 := by
  have hall : ∀ d ∈ "0123456789abcdefABCDEF".data, xvalues d.toNat ≠ 255 ∧ d.toNat < 128 := by
    decide
  exact hall c (List.elem_iff.mp h)

theorem asciiLower_of_toLower (c p : Char) (hp : p.toNat < 128) (h : c.toLower = p) :
    asciiLower c.toNat = p.toNat ∧ c.toNat < 128 := by
  unfold Char.toLower at h
  unfold asciiLower
  by_cases hr : 65 ≤ c.toNat ∧ c.toNat ≤ 90
  · rw [if_pos hr]
    simp only [ge_iff_le, hr, and_self, if_true] at h
    refine ⟨?_, by omega⟩
    rw [← h]
    obtain ⟨h1, h2⟩ := hr
    generalize c.toNat = n at h1 h2
    interval_cases n <;> rfl
  · rw [if_neg hr]
    have hcp : c = p := by
      simpa only [ge_iff_le, hr, if_false] using h
    subst hcp
    exact ⟨rfl, hp⟩

/-- Characters that match a form are one byte each, and their bytes fit the
form position by position. -/
theorem bytes_of_matchesForm (form : List Char) (hform : ∀ p ∈ form, p.toNat < 128)
    (cs : List Char) (h : matchesForm form cs = true) :
    cs.flatMap utf8Bytes = cs.map Char.toNat ∧ cs.length = form.length ∧
      ∀ i, i < form.length →
        if form.getD i 'x' = 'x' then xvalues ((cs.map Char.toNat).getD i 0) ≠ 255
        else asciiLower ((cs.map Char.toNat).getD i 0) = (form.getD i 'x').toNat := by
  induction form generalizing cs with
  | nil =>
    cases cs with
    | nil => exact ⟨rfl, rfl, fun i hi => absurd hi (by simp)⟩
    | cons c cs => simp [matchesForm] at h
  | cons p ps ih =>
    cases cs with
    | nil => simp [matchesForm] at h
    | cons c cs =>
      simp only [matchesForm, Bool.and_eq_true] at h
      obtain ⟨hc, hrest⟩ := h
      obtain ⟨hb, hl, hi⟩ := ih (fun q hq => hform q (List.mem_cons_of_mem p hq)) cs hrest
      have hp := hform p (List.mem_cons_self p ps)
      have hhead : (if p = 'x' then xvalues c.toNat ≠ 255 else asciiLower c.toNat = p.toNat) ∧
          c.toNat < 128 := by
        by_cases hpx : p = 'x'
        · rw [if_pos hpx] at hc
          rw [if_pos hpx]
          exact xvalues_of_isHexDigit c hc
        · rw [if_neg hpx] at hc
          rw [if_neg hpx]
          exact asciiLower_of_toLower c p hp (by simpa using hc)
      refine ⟨?_, by simp [hl], ?_⟩
      · simp only [List.flatMap_cons, utf8Bytes_of_lt c hhead.2, hb, List.singleton_append,
          List.map_cons]
      · intro i hlt
        cases i with
        | zero => simpa only [List.getD_cons_zero, List.map_cons] using hhead.1
        | succ j =>
          simpa only [List.getD_cons_succ, List.map_cons] using
            hi j (by simpa using hlt)

theorem decodeAt_of_hex {s : List Nat} :
    ∀ xs : List Nat,
      (∀ x ∈ xs, xvalues (s.getD x 0) ≠ 255 ∧ xvalues (s.getD (x + 1) 0) ≠ 255) →
      ∃ vs, decodeAt s xs = some vs := by
  intro xs
  induction xs with
  | nil => intro _; exact ⟨[], rfl⟩
  | cons y ys ih =>
    intro h
    obtain ⟨vs, hvs⟩ := ih (fun x hx => h x (List.mem_cons_of_mem y hx))
    have hy := h y (List.mem_cons_self y ys)
    refine ⟨(xvalues (s.getD y 0) * 16 + xvalues (s.getD (y + 1) 0)) :: vs, ?_⟩
    unfold decodeAt
    have hx : xtob (s.getD y 0) (s.getD (y + 1) 0) =
        some (xvalues (s.getD y 0) * 16 + xvalues (s.getD (y + 1) 0)) := by
      unfold xtob
      simp only [hy.1, hy.2, ne_eq, not_false_eq_true, and_self, if_true]
    rw [hx, hvs]

theorem dashedOffsets_hex :
    ∀ x ∈ dashedOffsets, x + 1 < 36 ∧ canonicalForm.getD x 'x' = 'x' ∧
      canonicalForm.getD (x + 1) 'x' = 'x' := by
  decide

theorem rawOffsets_hex : ∀ x ∈ rawOffsets, x + 1 < 32 := by
  decide

theorem asciiLower_eq_dash (b : Nat) (h : asciiLower b = 45) : b = 45 := by
  unfold asciiLower at h
  by_cases hr : 65 ≤ b ∧ b ≤ 90
  · rw [if_pos hr] at h; omega
  · rw [if_neg hr] at h; exact h

/-- `parseDashed` succeeds on bytes whose first 36 fit the canonical form. -/
theorem parseDashed_of_bytes (s : List Nat)
    (h : ∀ i, i < 36 →
      if canonicalForm.getD i 'x' = 'x' then xvalues (s.getD i 0) ≠ 255
      else asciiLower (s.getD i 0) = (canonicalForm.getD i 'x').toNat) :
    ∃ u, parseDashed s = some u := by
  have hdash : ∀ i, i < 36 → (i = 8 ∨ i = 13 ∨ i = 18 ∨ i = 23) → s.getD i 0 = 45 := by
    intro i hi hd
    have := h i hi
    rw [canonicalForm_getD i hi, if_pos hd] at this
    exact asciiLower_eq_dash _ (by simpa using this)
  have hhex : ∀ x ∈ dashedOffsets,
      xvalues (s.getD x 0) ≠ 255 ∧ xvalues (s.getD (x + 1) 0) ≠ 255 := by
    intro x hx
    obtain ⟨hlt, h1, h2⟩ := dashedOffsets_hex x hx
    have a := h x (by omega)
    have b := h (x + 1) hlt
    rw [h1, if_pos rfl] at a
    rw [h2, if_pos rfl] at b
    exact ⟨a, b⟩
  obtain ⟨vs, hvs⟩ := decodeAt_of_hex dashedOffsets hhex
  refine ⟨⟨vs⟩, ?_⟩
  unfold parseDashed
  rw [if_neg (by
    rw [hdash 8 (by omega) (by omega), hdash 13 (by omega) (by omega),
      hdash 18 (by omega) (by omega), hdash 23 (by omega) (by omega)]
    decide), hvs]
  rfl

theorem ext_getD (l₁ l₂ : List Nat) (hl : l₁.length = l₂.length)
    (h : ∀ i, i < l₁.length → l₁.getD i 0 = l₂.getD i 0) : l₁ = l₂ := by
  apply List.ext_getElem hl
  intro n h₁ h₂
  have := h n h₁
  rwa [List.getD_eq_getElem _ _ h₁, List.getD_eq_getElem _ _ h₂] at this

/-- `Parse` accepts every string in one of the four textual forms. -/
theorem Parse_of_acceptedForm {s : String} (h : AcceptedForm s) : ∃ u, Parse s = some u := by
  unfold Parse parseBytes goBytes
  rcases h with h | h | h | h
  · obtain ⟨hb, hl, hi⟩ := bytes_of_matchesForm canonicalForm
      (fun p hp => (canonicalForm_ascii p hp).2) s.data h
    have hlen : (s.data.map Char.toNat).length = 36 := by
      rw [List.length_map, hl]; rfl
    rw [hb, if_pos hlen]
    exact parseDashed_of_bytes _ hi
  · obtain ⟨hb, hl, hi⟩ := bytes_of_matchesForm urnForm
      (fun p hp => (urnForm_ascii p hp).2) s.data h
    have hlen : (s.data.map Char.toNat).length = 36 + 9 := by
      rw [List.length_map, hl]; rfl
    have hurn : ((s.data.map Char.toNat).take 9).map asciiLower =
        [117, 114, 110, 58, 117, 117, 105, 100, 58] := by
      have hl45 : s.data.length = 45 := by rw [hl]; rfl
      apply ext_getD
      · simp only [List.length_map, List.length_take, hl45]
        rfl
      · intro i hlt
        have h9 : i < 9 := by
          simp only [List.length_map, List.length_take, hl45] at hlt
          omega
        have := hi i (by
          have h45 : urnForm.length = 45 := rfl
          omega)
        rw [if_neg (urnForm_getD_head i h9).1, (urnForm_getD_head i h9).2] at this
        rw [getD_map_take _ _ 9 i h9 (by omega), this]
    rw [hb, if_neg (by omega), if_pos hlen, if_pos hurn]
    apply parseDashed_of_bytes
    intro i hlt
    have := hi (9 + i) (by
      have h45 : urnForm.length = 45 := rfl
      omega)
    rw [urnForm_getD_tail (9 + i) (by omega) (by omega)] at this
    have h9 : 9 + i - 9 = i := by omega
    rw [h9] at this
    rw [getD_drop]
    exact this
  · unfold wrappedCanonical at h
    cases hs : s.data with
    | nil => rw [hs] at h; exact absurd h (by simp)
    | cons a rest =>
      rw [hs] at h
      cases hlast : rest.getLast? with
      | none => simp [hlast] at h
      | some b =>
        simp only [hlast, Bool.and_eq_true, decide_eq_true_eq] at h
        obtain ⟨⟨ha, hb⟩, hm⟩ := h
        obtain ⟨hbytes, hl, hi⟩ := bytes_of_matchesForm canonicalForm
          (fun p hp => (canonicalForm_ascii p hp).2) rest.dropLast hm
        have hrest : rest = rest.dropLast ++ [b] :=
          (List.dropLast_append_getLast? b (by rw [hlast]; rfl)).symm
        have h36 : canonicalForm.length = 36 := rfl
        have hall : (a :: rest).flatMap utf8Bytes =
            a.toNat :: ((rest.dropLast.map Char.toNat) ++ [b.toNat]) := by
          rw [hrest]
          simp only [List.flatMap_cons, List.flatMap_append, utf8Bytes_of_lt a ha,
            utf8Bytes_of_lt b hb, hbytes, List.flatMap_nil, List.append_nil,
            List.singleton_append, List.dropLast_concat]
        have hlen : (a.toNat :: ((rest.dropLast.map Char.toNat) ++ [b.toNat])).length =
            36 + 2 := by
          simp only [List.length_cons, List.length_append, List.length_map, hl, h36,
            List.length_nil]
        rw [hall, if_neg (by omega), if_neg (by omega), if_pos hlen]
        apply parseDashed_of_bytes
        intro i hlt
        have := hi i (by omega)
        simp only [List.drop_succ_cons, List.drop_zero]
        rw [List.getD_append _ _ _ _ (by rw [List.length_map, hl, h36]; exact hlt)]
        exact this
  · obtain ⟨hb, hl, hi⟩ := bytes_of_matchesForm rawForm
      (fun p hp => (rawForm_ascii p hp).2) s.data h
    have hlen : (s.data.map Char.toNat).length = 32 := by
      rw [List.length_map, hl]; rfl
    rw [hb, if_neg (by omega), if_neg (by omega), if_neg (by omega), if_pos hlen]
    obtain ⟨vs, hvs⟩ := decodeAt_of_hex (s := s.data.map Char.toNat) rawOffsets (by
      intro x hx
      have hx1 := rawOffsets_hex x hx
      have h32 : rawForm.length = 32 := rfl
      have a := hi x (by omega)
      have b := hi (x + 1) (by omega)
      rw [rawForm_getD x (by omega), if_pos rfl] at a
      rw [rawForm_getD (x + 1) hx1, if_pos rfl] at b
      exact ⟨a, b⟩)
    exact ⟨⟨vs⟩, by rw [hvs]; rfl⟩

/-- `Parse` accepts exactly the strings in one of the four textual forms. -/
theorem wellFormed_iff_acceptedForm (s : String) : WellFormed s ↔ AcceptedForm s := by
  unfold WellFormed
  constructor
  · intro h
    obtain ⟨u, hu⟩ := Option.isSome_iff_exists.mp h
    exact acceptedForm_of_Parse hu
  · intro h
    obtain ⟨u, hu⟩ := Parse_of_acceptedForm h
    rw [hu]
    rfl

/-- Every string in the canonical form is accepted by `Parse`. -/
theorem wellFormed_of_canonical (s : String) (h : CanonicalUUID s) : WellFormed s :=
  (wellFormed_iff_acceptedForm s).mpr (Or.inl h)

theorem isHexDigit_hexDigit : ∀ n, n < 16 → isHexDigit (hexDigit n) = true := by
  decide

theorem canonicalForm_eq :
    canonicalForm =
      ['x', 'x', 'x', 'x', 'x', 'x', 'x', 'x',
      '-', 'x', 'x', 'x', 'x',
      '-', 'x', 'x', 'x', 'x',
      '-', 'x', 'x', 'x', 'x',
      '-', 'x', 'x', 'x', 'x', 'x', 'x', 'x', 'x', 'x', 'x', 'x', 'x'] := by
  decide

/-- The string form of a UUID is in the canonical form. -/
theorem canonical_String (u : UUID) (hlen : u.bytes.length = 16)
    (hb : ∀ b ∈ u.bytes, b < 256) : CanonicalUUID u.String := by
  obtain ⟨bytes⟩ := u
  simp only at hlen hb
  rcases bytes with _ | ⟨b0, _ | ⟨b1, _ | ⟨b2, _ | ⟨b3, _ | ⟨b4, _ | ⟨b5, _ | ⟨b6, _ | ⟨b7,
    _ | ⟨b8, _ | ⟨b9, _ | ⟨b10, _ | ⟨b11, _ | ⟨b12, _ | ⟨b13, _ | ⟨b14, _ | ⟨b15, _ | ⟨b16, tl⟩⟩⟩⟩⟩⟩⟩⟩⟩⟩⟩⟩⟩⟩⟩⟩⟩ <;>
    simp at hlen
  simp only [List.mem_cons, List.mem_nil_iff, or_false, forall_eq_or_imp, forall_eq] at hb
  obtain ⟨h0, h1, h2, h3, h4, h5, h6, h7, h8, h9, h10, h11, h12, h13, h14, h15⟩ := hb
  have hd : ∀ b, b < 256 →
      isHexDigit (hexDigit (b / 16)) = true ∧ isHexDigit (hexDigit (b % 16)) = true :=
    fun b hb => ⟨isHexDigit_hexDigit _ (by omega), isHexDigit_hexDigit _ (by omega)⟩
  have hdash : (('-' : Char).toLower == '-') = true := by decide
  have hx : ¬ ('-' : Char) = 'x' := by decide
  simp only [CanonicalUUID, UUID.String, canonicalForm_eq, List.take, List.drop, hexEncode,
    List.cons_append, List.nil_append, matchesForm, if_true, if_neg hx, hdash, hd _ h0,
    hd _ h1, hd _ h2, hd _ h3, hd _ h4, hd _ h5, hd _ h6, hd _ h7, hd _ h8, hd _ h9, hd _ h10,
    hd _ h11, hd _ h12, hd _ h13, hd _ h14, hd _ h15, Bool.and_self]

/-! ## Lemmas on the filters -/

theorem MustParse_of_Parse {s : String} {u : UUID} (h : Parse s = some u) :
    MustParse s = .ok u := by
  simp [MustParse, h]

theorem MustParse_of_not_wellFormed {s : String} (h : ¬ WellFormed s) :
    MustParse s = .error (.invalidUUID s) := by
  unfold WellFormed at h
  cases hp : Parse s with
  | none => simp [MustParse, hp]
  | some u => simp [hp] at h

theorem exists_Parse_of_wellFormed {s : String} (h : WellFormed s) :
    ∃ u, Parse s = some u := by
  unfold WellFormed at h
  exact Option.isSome_iff_exists.mp h

/-- What `FilterUserRecord` returns once the identity parses and both pointers
are set. -/
theorem FilterUserRecord_ok (user : User) (id : UUID) (photo provider : String)
    (hid : Parse user.ID = some id) (hphoto : user.Photo = some photo)
    (hprov : user.Provider = some provider) :
    FilterUserRecord user = .ok
      { ID := id, Name := user.Name, Email := user.Email, Role := user.Role, Photo := photo,
        Provider := provider, CreatedAt := user.CreatedAt, UpdatedAt := user.UpdatedAt } := by
  simp only [FilterUserRecord, MustParse_of_Parse hid, hphoto, hprov, deref]
  rfl

/-- What `FilterTaskRecord` returns once both identities parse. -/
theorem FilterTaskRecord_ok (task : Task) (id userID : UUID)
    (hid : Parse task.ID = some id) (huid : Parse task.UserID = some userID) :
    FilterTaskRecord task = .ok
      { ID := id, UserID := userID, Title := task.Title, Description := task.Description,
        Status := task.Status, Deadline := task.Deadline, CreatedAt := task.CreatedAt,
        UpdatedAt := task.UpdatedAt } := by
  simp only [FilterTaskRecord, MustParse_of_Parse hid, MustParse_of_Parse huid]
  rfl

/-! ## The filters -/

/-- C1: two users that agree on ID, Name, Email, Role, Photo, Provider,
CreatedAt and UpdatedAt, with a well-formed ID and Photo and Provider set, are
filtered to one and the same response, whatever their Password,
VerificationCode and PasswordResetToken are; and each of the eight fields of
that response is the value of a field the users agree on. -/
theorem FilterUserRecord_independent_of_secrets (u₁ u₂ : User)
    (hID : u₁.ID = u₂.ID) (hName : u₁.Name = u₂.Name) (hEmail : u₁.Email = u₂.Email)
    (hRole : u₁.Role = u₂.Role) (hPhoto : u₁.Photo = u₂.Photo)
    (hProvider : u₁.Provider = u₂.Provider) (hCreated : u₁.CreatedAt = u₂.CreatedAt)
    (hUpdated : u₁.UpdatedAt = u₂.UpdatedAt)
    (hWF : WellFormed u₁.ID) (hPhotoSet : u₁.Photo ≠ none) (hProviderSet : u₁.Provider ≠ none) :
    ∃ r : UserResponse,
      FilterUserRecord u₁ = .ok r ∧ FilterUserRecord u₂ = .ok r ∧
      Parse u₁.ID = some r.ID ∧ r.Name = u₁.Name ∧ r.Email = u₁.Email ∧ r.Role = u₁.Role ∧
      u₁.Photo = some r.Photo ∧ u₁.Provider = some r.Provider ∧
      r.CreatedAt = u₁.CreatedAt ∧ r.UpdatedAt = u₁.UpdatedAt := by
  obtain ⟨id, hid⟩ := exists_Parse_of_wellFormed hWF
  obtain ⟨photo, hphoto⟩ := Option.ne_none_iff_exists'.mp hPhotoSet
  obtain ⟨provider, hprov⟩ := Option.ne_none_iff_exists'.mp hProviderSet
  refine ⟨_, FilterUserRecord_ok u₁ id photo provider hid hphoto hprov, ?_, hid, rfl, rfl, rfl,
    hphoto, hprov, rfl, rfl⟩
  rw [FilterUserRecord_ok u₂ id photo provider (hID ▸ hid) (hPhoto ▸ hphoto)
    (hProvider ▸ hprov), hName, hEmail, hRole, hCreated, hUpdated]

/-- C1 at `sampleUser` and `sampleUserOtherSecrets`, which differ in all three
secrets. -/
theorem FilterUserRecord_independent_of_secrets_witness :
    sampleUser.Password ≠ sampleUserOtherSecrets.Password ∧
    sampleUser.VerificationCode ≠ sampleUserOtherSecrets.VerificationCode ∧
    sampleUser.PasswordResetToken ≠ sampleUserOtherSecrets.PasswordResetToken ∧
    ∃ r : UserResponse,
      FilterUserRecord sampleUser = .ok r ∧ FilterUserRecord sampleUserOtherSecrets = .ok r ∧
      Parse sampleUser.ID = some r.ID ∧ r.Name = sampleUser.Name ∧
      r.Email = sampleUser.Email ∧ r.Role = sampleUser.Role ∧
      sampleUser.Photo = some r.Photo ∧ sampleUser.Provider = some r.Provider ∧
      r.CreatedAt = sampleUser.CreatedAt ∧ r.UpdatedAt = sampleUser.UpdatedAt :=
  ⟨by decide, by decide, by decide,
    FilterUserRecord_independent_of_secrets sampleUser sampleUserOtherSecrets
      rfl rfl rfl rfl rfl rfl rfl rfl (by decide) (by decide) (by decide)⟩

/-- C2: on the user `sampleUserNilProvider`, whose Provider is nil while its ID
is well-formed and its Photo is set, `FilterUserRecord` aborts on the nil
dereference and returns no response, so no provider `local` either. -/
theorem FilterUserRecord_nil_Provider_aborts :
    sampleUserNilProvider.Provider = none ∧ WellFormed sampleUserNilProvider.ID ∧
    sampleUserNilProvider.Photo ≠ none ∧
    FilterUserRecord sampleUserNilProvider = .error .nilDereference :=
  ⟨rfl, by decide, by decide, rfl⟩

/-- C5: for a task whose ID and UserID are well-formed, `FilterTaskRecord`
returns a response whose ID is the parsed task ID, whose UserID is the parsed
user ID, and whose Title, Description, Status, Deadline, CreatedAt and
UpdatedAt are the task's. -/
theorem FilterTaskRecord_parses_both_ids (task : Task)
    (hID : WellFormed task.ID) (hUserID : WellFormed task.UserID) :
    ∃ r : taskResponse,
      FilterTaskRecord task = .ok r ∧
      Parse task.ID = some r.ID ∧ Parse task.UserID = some r.UserID ∧
      r.Title = task.Title ∧ r.Description = task.Description ∧ r.Status = task.Status ∧
      r.Deadline = task.Deadline ∧ r.CreatedAt = task.CreatedAt ∧
      r.UpdatedAt = task.UpdatedAt := by
  obtain ⟨id, hid⟩ := exists_Parse_of_wellFormed hID
  obtain ⟨uid, huid⟩ := exists_Parse_of_wellFormed hUserID
  exact ⟨_, FilterTaskRecord_ok task id uid hid huid, hid, huid, rfl, rfl, rfl, rfl, rfl, rfl⟩

/-- C5 at the task with ID `11111111-1111-1111-1111-111111111111` and UserID
`22222222-2222-2222-2222-222222222222`, whose parsed forms are `uuidOnes` and
`uuidTwos`. -/
theorem FilterTaskRecord_parses_both_ids_witness :
    sampleTask.ID = "11111111-1111-1111-1111-111111111111" ∧
    sampleTask.UserID = "22222222-2222-2222-2222-222222222222" ∧
    Parse "11111111-1111-1111-1111-111111111111" = some uuidOnes ∧
    Parse "22222222-2222-2222-2222-222222222222" = some uuidTwos ∧
    uuidOnes ≠ uuidTwos ∧
    ∃ r : taskResponse,
      FilterTaskRecord sampleTask = .ok r ∧
      Parse sampleTask.ID = some r.ID ∧ Parse sampleTask.UserID = some r.UserID ∧
      r.Title = sampleTask.Title ∧ r.Description = sampleTask.Description ∧
      r.Status = sampleTask.Status ∧ r.Deadline = sampleTask.Deadline ∧
      r.CreatedAt = sampleTask.CreatedAt ∧ r.UpdatedAt = sampleTask.UpdatedAt :=
  ⟨rfl, rfl, by decide, by decide, by decide,
    FilterTaskRecord_parses_both_ids sampleTask (by decide) (by decide)⟩

/-- Both filters abort when `uuid.Parse` rejects an identity. -/
theorem Filter_aborts_of_not_wellFormed :
    (∀ user : User, ¬ WellFormed user.ID → ∃ p : Panic, FilterUserRecord user = .error p) ∧
    (∀ task : Task, ¬ WellFormed task.ID ∨ ¬ WellFormed task.UserID →
      ∃ p : Panic, FilterTaskRecord task = .error p) := by
  constructor
  · intro user h
    refine ⟨.invalidUUID user.ID, ?_⟩
    simp only [FilterUserRecord, MustParse_of_not_wellFormed h]
    rfl
  · intro task h
    by_cases hID : WellFormed task.ID
    · have hU : ¬ WellFormed task.UserID := by tauto
      obtain ⟨id, hid⟩ := exists_Parse_of_wellFormed hID
      refine ⟨.invalidUUID task.UserID, ?_⟩
      simp only [FilterTaskRecord, MustParse_of_Parse hid, MustParse_of_not_wellFormed hU]
      rfl
    · refine ⟨.invalidUUID task.ID, ?_⟩
      simp only [FilterTaskRecord, MustParse_of_not_wellFormed hID]
      rfl

/-- C9, as stated, fails: the ID `x11111111-1111-1111-1111-111111111111y` is not
a UUID string (it is not in the canonical form, nor is it the URN or the raw
form), yet `FilterUserRecord` returns a full response on it, with the UUID of
its middle 36 characters; and so does `FilterTaskRecord` on a task whose UserID
is `x22222222-2222-2222-2222-222222222222y`. -/
theorem Filter_accepts_wrapped_identity :
    ¬ CanonicalUUID sampleUserWrappedID.ID ∧
    matchesForm urnForm sampleUserWrappedID.ID.data = false ∧
    matchesForm rawForm sampleUserWrappedID.ID.data = false ∧
    FilterUserRecord sampleUserWrappedID =
      .ok ⟨uuidOnes, "Ada", "ada@example.com", "user", "default.png", "local", ⟨1⟩, ⟨2⟩⟩ ∧
    ¬ CanonicalUUID sampleTaskWrappedUserID.UserID ∧
    matchesForm urnForm sampleTaskWrappedUserID.UserID.data = false ∧
    matchesForm rawForm sampleTaskWrappedUserID.UserID.data = false ∧
    FilterTaskRecord sampleTaskWrappedUserID =
      .ok ⟨uuidOnes, uuidTwos, "Write report", "quarterly", "To Do", ⟨3⟩, ⟨1⟩, ⟨2⟩⟩ :=
  ⟨by decide, by decide, by decide, rfl, by decide, by decide, by decide, rfl⟩

/-- C9, amended: `FilterUserRecord` aborts, returning no response, on every
user whose ID is in none of the four textual forms (canonical, canonical after
`urn:uuid:`, canonical between one leading and one trailing one-byte character,
32 hexadecimal digits), and `FilterTaskRecord` aborts, returning no response,
on every task whose ID or UserID is in none of them. -/
theorem Filter_aborts_outside_accepted_forms :
    (∀ user : User, ¬ AcceptedForm user.ID → ∃ p : Panic, FilterUserRecord user = .error p) ∧
    (∀ task : Task, ¬ AcceptedForm task.ID ∨ ¬ AcceptedForm task.UserID →
      ∃ p : Panic, FilterTaskRecord task = .error p) := by
  constructor
  · intro user h
    exact Filter_aborts_of_not_wellFormed.1 user
      (fun hw => h ((wellFormed_iff_acceptedForm user.ID).mp hw))
  · intro task h
    refine Filter_aborts_of_not_wellFormed.2 task ?_
    rcases h with h | h
    · exact Or.inl (fun hw => h ((wellFormed_iff_acceptedForm task.ID).mp hw))
    · exact Or.inr (fun hw => h ((wellFormed_iff_acceptedForm task.UserID).mp hw))

/-- C9, amended, at a user with the ID `not-a-uuid` and a task with an empty
UserID. -/
theorem Filter_aborts_outside_accepted_forms_witness :
    ¬ AcceptedForm sampleUserBadID.ID ∧
    (∃ p : Panic, FilterUserRecord sampleUserBadID = .error p) ∧
    (¬ AcceptedForm sampleTaskBadUserID.ID ∨ ¬ AcceptedForm sampleTaskBadUserID.UserID) ∧
    (∃ p : Panic, FilterTaskRecord sampleTaskBadUserID = .error p) :=
  ⟨by decide, Filter_aborts_outside_accepted_forms.1 sampleUserBadID (by decide),
    Or.inr (by decide),
    Filter_aborts_outside_accepted_forms.2 sampleTaskBadUserID (Or.inr (by decide))⟩

/-! ## Validation -/

/-- C3, as stated, fails: `sampleSignUpShortConfirm` has Name, Email, Password,
PasswordConfirm and Role non-empty and a Password of length 8, and
`ValidateStruct` reports its PasswordConfirm, which is shorter than 8. -/
theorem ValidateStruct_SignUpInput_short_confirm :
    sampleSignUpShortConfirm.Name ≠ "" ∧ sampleSignUpShortConfirm.Email ≠ "" ∧
    sampleSignUpShortConfirm.Password ≠ "" ∧ sampleSignUpShortConfirm.PasswordConfirm ≠ "" ∧
    sampleSignUpShortConfirm.Role ≠ "" ∧ 8 ≤ sampleSignUpShortConfirm.Password.length ∧
    ValidateStruct sampleSignUpShortConfirm =
      some [⟨"SignUpInput.PasswordConfirm", "min", "8"⟩] ∧
    ValidateStruct sampleSignUpShortConfirm ≠ some [] := by
  decide

/-- C3, amended: for a `SignUpInput` whose Name, Email, Password,
PasswordConfirm and Role are non-empty and whose Password and PasswordConfirm
both have at least 8 runes, `ValidateStruct` returns the empty list. -/
theorem ValidateStruct_SignUpInput_valid (p : SignUpInput)
    (hName : p.Name ≠ "") (hEmail : p.Email ≠ "") (hPassword : p.Password ≠ "")
    (hConfirm : p.PasswordConfirm ≠ "") (hRole : p.Role ≠ "")
    (hPasswordLen : 8 ≤ p.Password.length) (hConfirmLen : 8 ≤ p.PasswordConfirm.length) :
    ValidateStruct p = some [] := by
  have h1 : ¬ p.Password.length < 8 := by omega
  have h2 : ¬ p.PasswordConfirm.length < 8 := by omega
  simp [ValidateStruct_SignUpInput, hName, hEmail, hPassword, hConfirm, hRole, h1, h2]

/-- C3, amended, at `sampleSignUp`. -/
theorem ValidateStruct_SignUpInput_valid_witness :
    ValidateStruct sampleSignUp = some [] :=
  ValidateStruct_SignUpInput_valid sampleSignUp (by decide) (by decide) (by decide) (by decide)
    (by decide) (by decide) (by decide)

/-- C4: for a `SignUpInput` whose Email is empty, whatever its other fields,
`ValidateStruct` returns a non-empty list that contains a violation with Field
`SignUpInput.Email` and Tag `required`. -/
theorem ValidateStruct_SignUpInput_missing_email (p : SignUpInput) (hEmail : p.Email = "") :
    ∃ errs : List ErrorResponse,
      ValidateStruct p = some errs ∧ errs ≠ [] ∧
      ∃ e ∈ errs, e.Field = "SignUpInput.Email" ∧ e.Tag = "required" := by
  refine ⟨_, ValidateStruct_SignUpInput p, ?_, ?_⟩
  · simp [hEmail]
  · refine ⟨⟨"SignUpInput.Email", "required", ""⟩, ?_, rfl, rfl⟩
    simp [hEmail]

/-- C4 at `sampleSignUpNoEmail`. -/
theorem ValidateStruct_SignUpInput_missing_email_witness :
    ∃ errs : List ErrorResponse,
      ValidateStruct sampleSignUpNoEmail = some errs ∧ errs ≠ [] ∧
      ∃ e ∈ errs, e.Field = "SignUpInput.Email" ∧ e.Tag = "required" :=
  ValidateStruct_SignUpInput_missing_email sampleSignUpNoEmail rfl

/-- C8: a `ForgotPasswordInput` with an empty Email and a `ResetPasswordInput`
with empty Password and PasswordConfirm both pass `ValidateStruct` with the
empty list: their `required` stands under the struct-tag key `binding`, which
the validator built by `validator.New` does not read. -/
theorem ValidateStruct_password_reset_inputs_unchecked :
    ValidateStruct (ForgotPasswordInput.mk "") = some [] ∧
    ValidateStruct (ResetPasswordInput.mk "" "") = some [] := by
  decide

/-! ## The identity hooks -/

/-- C6: when identifier generation fails, `User.BeforeCreate` and
`Task.BeforeCreate` return that error and leave the entity as it was; when it
succeeds they return no error, set ID to the string form of the generated UUID
and leave every other field as it was. That string form is the canonical one:
for a generated UUID of sixteen bytes the new ID is in the canonical form and
parses back to the generated UUID. -/
theorem BeforeCreate_error_and_success (u : User) (t : Task) (tx : DB) (err : GoError)
    (id : UUID) :
    u.BeforeCreate tx (.error err) = (u, some err) ∧
    t.BeforeCreate tx (.error err) = (t, some err) ∧
    (u.BeforeCreate tx (.ok id)).2 = none ∧
    (u.BeforeCreate tx (.ok id)).1.ID = id.String ∧
    (u.BeforeCreate tx (.ok id)).1.Name = u.Name ∧
    (u.BeforeCreate tx (.ok id)).1.Email = u.Email ∧
    (u.BeforeCreate tx (.ok id)).1.Password = u.Password ∧
    (u.BeforeCreate tx (.ok id)).1.Role = u.Role ∧
    (u.BeforeCreate tx (.ok id)).1.Provider = u.Provider ∧
    (u.BeforeCreate tx (.ok id)).1.Photo = u.Photo ∧
    (u.BeforeCreate tx (.ok id)).1.Verified = u.Verified ∧
    (u.BeforeCreate tx (.ok id)).1.VerificationCode = u.VerificationCode ∧
    (u.BeforeCreate tx (.ok id)).1.PasswordResetToken = u.PasswordResetToken ∧
    (u.BeforeCreate tx (.ok id)).1.PasswordResetAt = u.PasswordResetAt ∧
    (u.BeforeCreate tx (.ok id)).1.CreatedAt = u.CreatedAt ∧
    (u.BeforeCreate tx (.ok id)).1.UpdatedAt = u.UpdatedAt ∧
    (u.BeforeCreate tx (.ok id)).1.Task = u.Task ∧
    (t.BeforeCreate tx (.ok id)).2 = none ∧
    (t.BeforeCreate tx (.ok id)).1.ID = id.String ∧
    (t.BeforeCreate tx (.ok id)).1.UserID = t.UserID ∧
    (t.BeforeCreate tx (.ok id)).1.Title = t.Title ∧
    (t.BeforeCreate tx (.ok id)).1.Description = t.Description ∧
    (t.BeforeCreate tx (.ok id)).1.Status = t.Status ∧
    (t.BeforeCreate tx (.ok id)).1.Deadline = t.Deadline ∧
    (t.BeforeCreate tx (.ok id)).1.CreatedAt = t.CreatedAt ∧
    (t.BeforeCreate tx (.ok id)).1.UpdatedAt = t.UpdatedAt ∧
    (id.bytes.length = 16 → (∀ b ∈ id.bytes, b < 256) →
      CanonicalUUID (u.BeforeCreate tx (.ok id)).1.ID ∧
      Parse (u.BeforeCreate tx (.ok id)).1.ID = some id ∧
      CanonicalUUID (t.BeforeCreate tx (.ok id)).1.ID ∧
      Parse (t.BeforeCreate tx (.ok id)).1.ID = some id) := by
  refine ⟨rfl, rfl, rfl, rfl, rfl, rfl, rfl, rfl, rfl, rfl, rfl, rfl, rfl, rfl, rfl, rfl, rfl,
    rfl, rfl, rfl, rfl, rfl, rfl, rfl, rfl, rfl, ?_⟩
  intro hlen hb
  exact ⟨canonical_String id hlen hb, Parse_String id hlen hb, canonical_String id hlen hb,
    Parse_String id hlen hb⟩

/-- C6 at `sampleUser` and `sampleTask`, with the error `boom` and with
`uuidTwos` generated: the new ID is `22222222-2222-2222-2222-222222222222`. -/
theorem BeforeCreate_error_and_success_witness :
    sampleUser.BeforeCreate ⟨"db"⟩ (.error ⟨"boom"⟩) = (sampleUser, some ⟨"boom"⟩) ∧
    sampleTask.BeforeCreate ⟨"db"⟩ (.error ⟨"boom"⟩) = (sampleTask, some ⟨"boom"⟩) ∧
    (sampleUser.BeforeCreate ⟨"db"⟩ (.ok uuidTwos)).1.ID =
      "22222222-2222-2222-2222-222222222222" ∧
    (sampleTask.BeforeCreate ⟨"db"⟩ (.ok uuidTwos)).1.ID =
      "22222222-2222-2222-2222-222222222222" ∧
    CanonicalUUID (sampleUser.BeforeCreate ⟨"db"⟩ (.ok uuidTwos)).1.ID ∧
    Parse (sampleUser.BeforeCreate ⟨"db"⟩ (.ok uuidTwos)).1.ID = some uuidTwos ∧
    CanonicalUUID (sampleTask.BeforeCreate ⟨"db"⟩ (.ok uuidTwos)).1.ID ∧
    Parse (sampleTask.BeforeCreate ⟨"db"⟩ (.ok uuidTwos)).1.ID = some uuidTwos := by
  obtain ⟨he1, he2, _, _, _, _, _, _, _, _, _, _, _, _, _, _, _, _, _, _, _, _, _, _, _, _,
    hparse⟩ := BeforeCreate_error_and_success sampleUser sampleTask ⟨"db"⟩ ⟨"boom"⟩ uuidTwos
  exact ⟨he1, he2, by decide, by decide, hparse (by decide) (by decide)⟩

/-- C7, as stated, fails: `sampleUser` and `sampleTask` hold the non-empty ID
`11111111-1111-1111-1111-111111111111`, and a successful run of their hooks
that generates `uuidTwos` replaces it by
`22222222-2222-2222-2222-222222222222`. -/
theorem BeforeCreate_overwrites_assigned_ID :
    sampleUser.ID ≠ "" ∧
    (sampleUser.BeforeCreate ⟨"db"⟩ (.ok uuidTwos)).2 = none ∧
    (sampleUser.BeforeCreate ⟨"db"⟩ (.ok uuidTwos)).1.ID =
      "22222222-2222-2222-2222-222222222222" ∧
    (sampleUser.BeforeCreate ⟨"db"⟩ (.ok uuidTwos)).1.ID ≠ sampleUser.ID ∧
    sampleTask.ID ≠ "" ∧
    (sampleTask.BeforeCreate ⟨"db"⟩ (.ok uuidTwos)).2 = none ∧
    (sampleTask.BeforeCreate ⟨"db"⟩ (.ok uuidTwos)).1.ID ≠ sampleTask.ID := by
  decide

/-- C7, amended: for a User or Task whose ID is already assigned (non-empty), a
successful run of its hook sets the ID to the string form of the newly
generated UUID; the ID equals its previous value exactly when the previous
value already was that string. -/
theorem BeforeCreate_assigns_generated_ID (u : User) (t : Task) (tx : DB) (id : UUID)
    (_hu : u.ID ≠ "") (_ht : t.ID ≠ "") :
    (u.BeforeCreate tx (.ok id)).1.ID = id.String ∧
    ((u.BeforeCreate tx (.ok id)).1.ID = u.ID ↔ u.ID = id.String) ∧
    (t.BeforeCreate tx (.ok id)).1.ID = id.String ∧
    ((t.BeforeCreate tx (.ok id)).1.ID = t.ID ↔ t.ID = id.String) := by
  exact ⟨rfl, eq_comm, rfl, eq_comm⟩

/-- C7, amended, at `sampleUser` and `sampleTask`, whose ID is
`11111111-1111-1111-1111-111111111111`, with `uuidTwos` generated: the ID
becomes `22222222-2222-2222-2222-222222222222`. -/
theorem BeforeCreate_assigns_generated_ID_witness :
    sampleUser.ID ≠ "" ∧ sampleTask.ID ≠ "" ∧
    uuidTwos.String = "22222222-2222-2222-2222-222222222222" ∧
    (sampleUser.BeforeCreate ⟨"db"⟩ (.ok uuidTwos)).1.ID = uuidTwos.String ∧
    ((sampleUser.BeforeCreate ⟨"db"⟩ (.ok uuidTwos)).1.ID = sampleUser.ID ↔
      sampleUser.ID = uuidTwos.String) ∧
    (sampleTask.BeforeCreate ⟨"db"⟩ (.ok uuidTwos)).1.ID = uuidTwos.String ∧
    ((sampleTask.BeforeCreate ⟨"db"⟩ (.ok uuidTwos)).1.ID = sampleTask.ID ↔
      sampleTask.ID = uuidTwos.String) :=
  ⟨by decide, by decide, by decide,
    BeforeCreate_assigns_generated_ID sampleUser sampleTask ⟨"db"⟩ uuidTwos (by decide)
      (by decide)⟩

end Models
